import Mathlib

/-!
Verification development for the CrediLocker client-side data processing.

The repository is a set of React screen components over a backend-as-a-service
client.  The embedding below translates the pure data-processing fragments of
those components (tier lookup, grouping, filtering, tallying, CSV parsing)
into Lean definitions.  JavaScript numbers that only ever hold exact values in
this code are modelled as `ℚ` (or `Int`/`Nat` where the source only compares
and adds integers); JavaScript strings are modelled as `String`, with the few
character-level operations (`toLowerCase`, `includes`, `split`, `trim`)
modelled on the underlying character lists.
-/

namespace CrediLocker

open scoped List

/-- A row of the `credits_config` tier table of a CEP requirement:
`{ hours, credits }`. -/
structure Tier where
  hours : ℚ
  credits : ℚ
deriving DecidableEq

/-- The descending-by-hours order used by the export's comparator
`(a, b) => b.hours - a.hours`. -/
def tierGE (a b : Tier) : Prop := b.hours ≤ a.hours

instance : DecidableRel tierGE :=
  fun a b => inferInstanceAs (Decidable (b.hours ≤ a.hours))

instance : IsTotal Tier tierGE := ⟨fun a b => le_total b.hours a.hours⟩

instance : IsTrans Tier tierGE := ⟨fun _ _ _ hab hbc => le_trans hbc hab⟩

/-- Credit allocation of `exportCEPReportLanding`: if the tier table is
non-empty, sort a copy of it by descending `hours` and walk it, returning the
`credits` of the first tier whose `hours` threshold is at most the student's
total `hours`; `credits` stays `0` when no tier matches or the table is
empty. -/
def computeCredits (creditConfig : List Tier) (hours : ℚ) : ℚ :=
  if 0 < creditConfig.length then
    match (List.insertionSort tierGE creditConfig).find? (fun c => decide (c.hours ≤ hours)) with
    | some c => c.credits
    | none => 0
  else 0

/-- A field-project submission row (the columns the teacher dashboard reads).
The source column `class` is a Lean keyword, so it is named `cls` here. -/
structure FpSub where
  id : String
  student_uid : String
  cls : String
  document_type : String
  file_url : String
  uploaded_at : String
deriving DecidableEq

/-- The four required field-project document types
(`new Set([...])` in `fetchTeacherDashboard`). -/
def requiredTypes : Finset String :=
  {"completion_letter", "outcome_form", "feedback_form", "video_presentation"}

/-- The set of distinct `document_type` values submitted by `uid`, as
accumulated into `studentDocs[uid].types` by `fetchTeacherDashboard`. -/
def studentTypes (uid : String) (subs : List FpSub) : Finset String :=
  ((subs.filter (fun s => s.student_uid = uid)).map (fun s => s.document_type)).toFinset

/-- The dashboard's completeness test for one student:
`requiredTypes.size === types.size && [...requiredTypes].every(t => types.has(t))`. -/
def countedAllDocs (uid : String) (subs : List FpSub) : Bool :=
  decide (requiredTypes.card = (studentTypes uid subs).card) &&
  decide (∀ t ∈ requiredTypes, t ∈ studentTypes uid subs)

/-- A CEP submission row (the columns the components read). -/
structure CepSub where
  id : String
  student_uid : String
  activity_name : String
  hours : ℚ
  activity_date : String
  location : String
deriving DecidableEq

/-- `getTotalHours`: `submissions.reduce((total, sub) => total + sub.hours, 0)`. -/
def getTotalHours (submissions : List CepSub) : ℚ :=
  submissions.foldl (fun total sub => total + sub.hours) 0

/-- A CEP requirement row. -/
structure CEPRequirement where
  assigned_class : String
  minimum_hours : ℚ
  deadline : String
deriving DecidableEq

/-- Student-view progress:
`requirement ? Math.min((totalHours / requirement.minimum_hours) * 100, 100) : 0`
(the same expression is computed in `fetchCEPProgress` and
`fetchStudentDashboard`). -/
def studentProgress (requirement : Option CEPRequirement) (submissions : List CepSub) : ℚ :=
  match requirement with
  | some req => min ((getTotalHours submissions / req.minimum_hours) * 100) 100
  | none => 0

/-- One step of the grouping `reduce`: append `x` to the group keyed `key`
in the accumulator.  JavaScript objects keep string keys in insertion order
and `push` appends at the end, so the accumulator is an association list. -/
def addToGroup {α κ : Type} [DecidableEq κ] (key : κ) (x : α) :
    List (κ × List α) → List (κ × List α)
  | [] => [(key, [x])]
  | (k, xs) :: rest =>
      if k = key then (k, xs ++ [x]) :: rest else (k, xs) :: addToGroup key x rest

/-- The grouping `reduce((acc, sub) => { ...; acc[key].push(sub); ... }, {})`
keyed by `keyOf`. -/
def groupByKey {α κ : Type} [DecidableEq κ] (keyOf : α → κ) (l : List α) :
    List (κ × List α) :=
  l.foldl (fun acc x => addToGroup (keyOf x) x acc) []

/-- The key string of `groupedSubmissions` in `FieldProject` and
`exportFieldProjectReport`, built from the row's own uid and class. -/
def fpGroupKey (s : FpSub) : String := s.student_uid ++ "_" ++ s.cls

/-- Count of fetched attendance rows whose status is exactly `present`
(`fetchStudentDashboard`). -/
def presentCount (att : List String) : Nat :=
  (att.filter (fun r => r = "present")).length

/-- Count of fetched attendance rows whose status is exactly `absent`. -/
def absentCount (att : List String) : Nat :=
  (att.filter (fun r => r = "absent")).length

/-- The landing-page present-percentage:
`total > 0 ? Math.round((present / total) * 100) : 0`, with
`Math.round x = ⌊x + 1/2⌋`, which is Mathlib's `round` on `ℚ`. -/
def attendancePct (att : List String) : ℤ :=
  let total := presentCount att + absentCount att
  if 0 < total then round (((presentCount att : ℚ) / (total : ℚ)) * 100) else 0

/-- A co-curricular activity row.  `assigned_class` is an `Option` because
`exportAttendanceReportLanding` guards with `Array.isArray`, and `cc_points`
is an `Option` because the export reads `activity.cc_points || 0`. -/
structure Activity where
  id : Int
  activity_name : String
  date : String
  assigned_class : Option (List String)
  cc_points : Option Int
deriving DecidableEq

/-- A co-curricular attendance row. -/
structure AttRecord where
  activity_id : Int
  student_uid : String
  attendance_status : String
deriving DecidableEq

/-- Class-assignment test used by the export (and by `fetchActivities`):
`Array.isArray(a.assigned_class) && a.assigned_class.includes(cls)`. -/
def assignedTo (cls : String) (a : Activity) : Bool :=
  match a.assigned_class with
  | some l => l.contains cls
  | none => false

/-- Date order of the export's sort comparator. -/
def dateLE (a b : Activity) : Prop := a.date ≤ b.date

instance : DecidableRel dateLE :=
  fun a b => inferInstanceAs (Decidable (a.date ≤ b.date))

instance : IsTotal Activity dateLE := ⟨fun a b => le_total a.date b.date⟩

instance : IsTrans Activity dateLE := ⟨fun _ _ _ => le_trans⟩

/-- `classActivities` of the export: activities assigned to the class, sorted
by date. -/
def classActivitiesFor (activities : List Activity) (cls : String) : List Activity :=
  List.insertionSort dateLE (activities.filter (assignedTo cls))

/-- The export's `attendanceMap`: every record is `Map.set` in list order, so
a later record with the same `(activity_id, student_uid)` key overwrites an
earlier one, and a lookup returns the status of the last such record. -/
def lookupStatus (records : List AttRecord) (aid : Int) (uid : String) : Option String :=
  (records.reverse.find? (fun r => r.activity_id = aid && r.student_uid = uid)).map
    (fun r => r.attendance_status)

/-- One cell of the export row for a looked-up status. -/
def cellFor (st : Option String) : String :=
  match st with
  | some s => if s = "present" then "Present" else if s = "absent" then "Absent" else "-"
  | none => "-"

/-- Points contributed by one activity: `activity.cc_points || 0`, added only
on a `present` status. -/
def pointsFor (a : Activity) (st : Option String) : Int :=
  if st = some "present" then a.cc_points.getD 0 else 0

/-- The per-student loop of the export: one pass over the class activities
accumulating the status cells and the running `totalPoints`. -/
def studentRowData (classActivities : List Activity) (records : List AttRecord)
    (uid : String) : List String × Int :=
  classActivities.foldl
    (fun acc activity =>
      (acc.1 ++ [cellFor (lookupStatus records activity.id uid)],
       acc.2 + pointsFor activity (lookupStatus records activity.id uid)))
    ([], 0)

/-- Whether the student has some attendance record with the given status for
this activity. -/
def hasStatusRecord (records : List AttRecord) (aid : Int) (uid : String)
    (st : String) : Bool :=
  records.any (fun r => r.activity_id = aid && r.student_uid = uid &&
    r.attendance_status = st)

/-- The cell the claim describes: `Present` when a present record exists,
`Absent` when an absent record exists, `-` otherwise. -/
def claimCell (records : List AttRecord) (aid : Int) (uid : String) : String :=
  if hasStatusRecord records aid uid "present" then "Present"
  else if hasStatusRecord records aid uid "absent" then "Absent"
  else "-"

/-- Two attendance rows share the map key. -/
def sameKey (r1 r2 : AttRecord) : Prop :=
  r1.activity_id = r2.activity_id ∧ r1.student_uid = r2.student_uid

instance (r1 r2 : AttRecord) : Decidable (sameKey r1 r2) :=
  inferInstanceAs
    (Decidable (r1.activity_id = r2.activity_id ∧ r1.student_uid = r2.student_uid))

/-- The two roles of the application. -/
inductive Role
  | student
  | teacher
deriving DecidableEq

/-- `fetchActivities` as a function of the `role` prop, the `studentClass`
state the closure reads, and the fetched rows: a student with a truthy
(non-null, non-empty) stored class sees only activities whose
`assigned_class` array includes that class; everyone else gets the
unfiltered rows. -/
def fetchActivitiesResult (role : Role) (studentClass : Option String)
    (data : List Activity) : List Activity :=
  match role, studentClass with
  | Role.student, some c => if c = "" then data else data.filter (assignedTo c)
  | _, _ => data

/-- The `CoCurricular` state touched by the mount effect. -/
structure CoCurricularState where
  studentClass : Option String
  activities : List Activity
deriving DecidableEq

/-- The `useState` initial values: `studentClass = null`, `activities = []`. -/
def initialCoCurricularState : CoCurricularState :=
  { studentClass := none, activities := [] }

/-- `savedUser.data?.class || null` in the mount effect: an empty class is
stored as `null`. -/
def parsedSavedClass (savedClass : Option String) : Option String :=
  match savedClass with
  | some c => if c = "" then none else some c
  | none => none

/-- The mount effect of `CoCurricular`: parse the saved user, queue
`setStudentClass` when the saved role is `student`, then call
`fetchActivities`.  React applies queued state updates only after the effect
body runs, and `fetchActivities` is the closure created at the first render,
so it reads the initial `studentClass` (`null`), not the queued value. -/
def mountCoCurricular (role : Role) (savedRole : Option Role)
    (savedClass : Option String) (fetched : List Activity) : CoCurricularState :=
  let s0 := initialCoCurricularState
  let s1 :=
    match savedRole with
    | some Role.student => { s0 with studentClass := parsedSavedClass savedClass }
    | _ => s0
  { s1 with activities := fetchActivitiesResult role s0.studentClass fetched }

/-- Per-character lower-casing, the model of `toLowerCase`. -/
def lowerStr (s : String) : String := String.mk (s.data.map Char.toLower)

/-- Whether the first list starts the second. -/
def hasPrefixChars : List Char → List Char → Bool
  | [], _ => true
  | _ :: _, [] => false
  | p :: ps, c :: cs => p = c && hasPrefixChars ps cs

/-- Whether `pat` occurs contiguously in the list — the model of the JS
string `includes` method. -/
def hasSubChars (pat : List Char) : List Char → Bool
  | [] => hasPrefixChars pat []
  | c :: cs => hasPrefixChars pat (c :: cs) || hasSubChars pat cs

/-- `s.includes(pat)`. -/
def includesStr (s pat : String) : Bool := hasSubChars pat.data s.data

/-- A row of the `students` table as read by the teacher views
(`uid, name, class`). -/
structure StudentRec where
  uid : String
  name : String
  cls : String
deriving DecidableEq

/-- The three filter inputs of the `FieldProject` and `CommunityEngagement`
teacher views. -/
structure Filters where
  cls : String
  uid : String
  name : String
deriving DecidableEq

/-- The `filteredSubmissions` predicate of `FieldProject`: class by the
submission's own `class` column, uid and name by case-insensitive substring
match, the name against the student roster entry found by uid. -/
def matchesFpFilters (students : List StudentRec) (filters : Filters)
    (sub : FpSub) : Bool :=
  let student := students.find? (fun s => s.uid = sub.student_uid)
  let matchesClass := filters.cls = "" || sub.cls = filters.cls
  let matchesUid := filters.uid = "" ||
    includesStr (lowerStr sub.student_uid) (lowerStr filters.uid)
  let matchesName := filters.name = "" ||
    (match student with
     | some st => includesStr (lowerStr st.name) (lowerStr filters.name)
     | none => false)
  matchesClass && matchesUid && matchesName

/-- `filteredSubmissions` of `FieldProject`. -/
def filteredSubmissions (students : List StudentRec) (filters : Filters)
    (subs : List FpSub) : List FpSub :=
  subs.filter (matchesFpFilters students filters)

/-- The `filteredTeacherSubmissions` predicate of `CommunityEngagement`:
like the field-project one, except the class is matched through the roster
entry's class. -/
def matchesCepFilters (students : List StudentRec) (filters : Filters)
    (sub : CepSub) : Bool :=
  let student := students.find? (fun s => s.uid = sub.student_uid)
  let matchesClass := filters.cls = "" ||
    (match student with
     | some st => st.cls = filters.cls
     | none => false)
  let matchesUid := filters.uid = "" ||
    includesStr (lowerStr sub.student_uid) (lowerStr filters.uid)
  let matchesName := filters.name = "" ||
    (match student with
     | some st => includesStr (lowerStr st.name) (lowerStr filters.name)
     | none => false)
  matchesClass && matchesUid && matchesName

/-- `filteredTeacherSubmissions` of `CommunityEngagement`. -/
def filteredTeacherSubmissions (students : List StudentRec) (filters : Filters)
    (subs : List CepSub) : List CepSub :=
  subs.filter (matchesCepFilters students filters)

/-- A roster row of `ManageClasses`; `email` is optional because the search
reads `s.email || ''`. -/
structure StudentRow where
  uid : String
  email : Option String
  name : String
  cls : String
deriving DecidableEq

/-- The `filteredStudents` predicate of `ManageClasses`: class filter by
equality, search by case-insensitive substring match against uid, name, or
email. -/
def matchesStudentFilters (classFilter search : String) (s : StudentRow) : Bool :=
  let matchesClass := classFilter = "" || s.cls = classFilter
  let q := lowerStr search
  let matchesSearch := q = "" ||
    includesStr (lowerStr s.uid) q ||
    includesStr (lowerStr s.name) q ||
    includesStr (lowerStr (s.email.getD "")) q
  matchesClass && matchesSearch

/-- `filteredStudents` of `ManageClasses`. -/
def filteredStudents (classFilter search : String) (students : List StudentRow) :
    List StudentRow :=
  students.filter (matchesStudentFilters classFilter search)

/-- The JS string `split` for a single-character separator, on character
lists; splitting the empty text yields one empty piece. -/
def splitOnChar (sep : Char) : List Char → List (List Char)
  | [] => [[]]
  | c :: cs =>
    let r := splitOnChar sep cs
    if c = sep then [] :: r
    else (c :: r.headD []) :: r.tail

/-- Strip one trailing carriage return; together with splitting on the
newline character this models the `split(/\r?\n/)` of `handleCsvUpload`. -/
def stripCR (l : List Char) : List Char :=
  if l.getLast? = some '\r' then l.dropLast else l

/-- The non-empty lines of the CSV text
(`text.split(/\r?\n/).filter(Boolean)`). -/
def csvRows (text : String) : List (List Char) :=
  ((splitOnChar '\n' text.data).map stripCR).filter (fun l => !l.isEmpty)

/-- The JS string `trim`. -/
def trimChars (l : List Char) : List Char :=
  ((l.dropWhile Char.isWhitespace).reverse.dropWhile Char.isWhitespace).reverse

/-- The JS `toLowerCase` on a character list. -/
def lowerChars (l : List Char) : List Char := l.map Char.toLower

/-- The header cells: `rows[0].split(',').map(h => h.trim().toLowerCase())`. -/
def csvHeader (text : String) : List (List Char) :=
  (splitOnChar ',' ((csvRows text).headD [])).map (fun h => lowerChars (trimChars h))

/-- The required header columns. -/
def requiredCols : List (List Char) :=
  ["uid".data, "email".data, "name".data, "class".data]

/-- Whether every required column occurs in the header. -/
def csvHeaderOk (text : String) : Bool :=
  requiredCols.all (fun r => (csvHeader text).contains r)

/-- `cols[header.indexOf(col)] || ''`: the cell under a header column, empty
when the column is absent or the row is short. -/
def cellAt (header cols : List (List Char)) (col : List Char) : List Char :=
  match List.findIdx? (fun h => h = col) header with
  | some i => cols.getD i []
  | none => []

/-- The allowed class values (`CLASS_OPTIONS`). -/
def classOptions : List (List Char) :=
  ["FYIT".data, "FYSD".data, "SYIT".data, "SYSD".data]

/-- The trimmed `uid` cell of a data row. -/
def rowUid (header : List (List Char)) (row : List Char) : List Char :=
  trimChars (cellAt header (splitOnChar ',' row) "uid".data)

/-- The trimmed `class` cell of a data row. -/
def rowCls (header : List (List Char)) (row : List Char) : List Char :=
  trimChars (cellAt header (splitOnChar ',' row) "class".data)

/-- Digit-string value, `none` on any non-digit. -/
def digitsToNat (l : List Char) : Option Nat :=
  l.foldl (fun acc c =>
    match acc with
    | some n => if c.isDigit then some (n * 10 + (c.toNat - '0'.toNat)) else none
    | none => none) (some 0)

/-- Model of the `toNumber` helper (`Number(v)` with a `null` fallback for
non-finite results), restricted to the integer literals this CSV column
uses: the empty string coerces to `0`, decimal digit strings to their value,
a leading `-` negates, anything else is `NaN` and becomes `null`. -/
def toNumber (l : List Char) : Option Int :=
  match l with
  | [] => some 0
  | '-' :: rest =>
    match rest, digitsToNat rest with
    | [], _ => none
    | _, some n => some (-(n : Int))
    | _, none => none
  | _ => (digitsToNat l).map (fun n => (n : Int))

/-- The object pushed into `upserts` for one CSV data row. -/
structure UpsertRow where
  uid : List Char
  email : List Char
  name : List Char
  cls : List Char
  semester : Option Int
  phone_number : Option (List Char)
deriving DecidableEq

/-- The row-to-upsert translation of the CSV loop body; `semester` and
`phone_number` are only read when their columns exist. -/
def rowToUpsert (header : List (List Char)) (row : List Char) : UpsertRow :=
  let cols := splitOnChar ',' row
  { uid := trimChars (cellAt header cols "uid".data)
    email := trimChars (cellAt header cols "email".data)
    name := trimChars (cellAt header cols "name".data)
    cls := trimChars (cellAt header cols "class".data)
    semester :=
      match List.findIdx? (fun h => h = "semester".data) header with
      | some _ => toNumber (trimChars (cellAt header cols "semester".data))
      | none => none
    phone_number :=
      match List.findIdx? (fun h => h = "phone_number".data) header with
      | some _ => some (trimChars (cellAt header cols "phone_number".data))
      | none => none }

/-- The data-row loop of `handleCsvUpload`: skip rows with an empty trimmed
uid, abort (`none`) on the first invalid class, otherwise collect the upsert
objects.  (The `cols.length === 0` `continue` of the source is unreachable:
`split` never returns an empty array.) -/
def parseDataRows (header : List (List Char)) : List (List Char) → Option (List UpsertRow)
  | [] => some []
  | row :: rest =>
    if (rowUid header row).isEmpty then parseDataRows header rest
    else if classOptions.contains (rowCls header row) then
      (parseDataRows header rest).map (fun us => rowToUpsert header row :: us)
    else none

/-- `handleCsvUpload` up to its single `upsert` call: `none` when the import
returns early (no write is issued), `some us` when
`upsert(us, { onConflict: 'uid' })` is called once with rows `us`. -/
def handleCsvUpload (text : String) : Option (List UpsertRow) :=
  if (csvRows text).length = 0 then none
  else if csvHeaderOk text then parseDataRows (csvHeader text) (csvRows text).tail
  else none

/-- Upsert semantics keyed on `uid`: replace the rows with a matching uid,
or append. -/
def upsertByUid (roster : List UpsertRow) (r : UpsertRow) : List UpsertRow :=
  if roster.any (fun s => s.uid = r.uid) then
    roster.map (fun s => if s.uid = r.uid then r else s)
  else roster ++ [r]

/-- The stored roster after the import: unchanged when the upload aborts. -/
def applyCsvImport (roster : List UpsertRow) (text : String) : List UpsertRow :=
  match handleCsvUpload text with
  | none => roster
  | some us => us.foldl upsertByUid roster

/-- On a list sorted by descending `hours`, the first tier whose threshold is
at most `hours` has the greatest threshold among all tiers with threshold at
most `hours`. -/
theorem find_first_le_sorted (hours : ℚ) :
    ∀ l : List Tier, l.Sorted tierGE →
      ∀ c, l.find? (fun t => decide (t.hours ≤ hours)) = some c →
        c ∈ l ∧ c.hours ≤ hours ∧ ∀ t ∈ l, t.hours ≤ hours → t.hours ≤ c.hours := by
  intro l
  induction l with
  | nil => intro _ c hc; simp at hc
  | cons a l ih =>
    intro hsorted c hc
    rw [List.sorted_cons] at hsorted
    rw [List.find?_cons] at hc
    by_cases ha : a.hours ≤ hours
    · simp only [decide_eq_true ha] at hc
      injection hc with hc
      subst hc
      refine ⟨List.mem_cons_self _ _, ha, ?_⟩
      intro t ht _
      rcases List.mem_cons.1 ht with rfl | ht
      · exact le_refl _
      · exact hsorted.1 t ht
    · simp only [decide_eq_false ha] at hc
      obtain ⟨hmem, hle, hmax⟩ := ih hsorted.2 c hc
      refine ⟨List.mem_cons_of_mem _ hmem, hle, ?_⟩
      intro t ht hth
      rcases List.mem_cons.1 ht with rfl | ht
      · exact absurd hth ha
      · exact hmax t ht hth

/-- C1: the credits allocated in the exported CEP report for a student with
total hours `hours` are `0` when no tier's threshold is at most `hours`
(in particular when the config is empty), and otherwise equal the credits of
a tier whose threshold is at most `hours` and is greatest among all such
thresholds. -/
theorem cep_credit_tier_lookup (creditConfig : List Tier) (hours : ℚ) :
    ((∀ t ∈ creditConfig, hours < t.hours) → computeCredits creditConfig hours = 0) ∧
    ((∃ t ∈ creditConfig, t.hours ≤ hours) →
      ∃ t ∈ creditConfig, t.hours ≤ hours ∧ computeCredits creditConfig hours = t.credits ∧
        ∀ u ∈ creditConfig, u.hours ≤ hours → u.hours ≤ t.hours) := by
  have hperm := List.perm_insertionSort tierGE creditConfig
  constructor
  · intro hall
    unfold computeCredits
    split
    · have hnone : (List.insertionSort tierGE creditConfig).find?
          (fun t => decide (t.hours ≤ hours)) = none := by
        rw [List.find?_eq_none]
        intro t ht
        have : t ∈ creditConfig := hperm.mem_iff.1 ht
        simp only [decide_eq_true_eq]
        exact not_le_of_lt (hall t this)
      rw [hnone]
    · rfl
  · intro hex
    obtain ⟨t0, ht0mem, ht0le⟩ := hex
    have hne : 0 < creditConfig.length := by
      cases creditConfig with
      | nil => simp at ht0mem
      | cons a l => simp
    unfold computeCredits
    rw [if_pos hne]
    cases hfind : (List.insertionSort tierGE creditConfig).find?
        (fun t => decide (t.hours ≤ hours)) with
    | none =>
      exfalso
      rw [List.find?_eq_none] at hfind
      have := hfind t0 (hperm.mem_iff.2 ht0mem)
      simp only [decide_eq_true_eq] at this
      exact this ht0le
    | some c =>
      obtain ⟨hmem, hle, hmax⟩ :=
        find_first_le_sorted hours _ (List.sorted_insertionSort tierGE creditConfig) c hfind
      refine ⟨c, hperm.mem_iff.1 hmem, hle, rfl, ?_⟩
      intro u humem hule
      exact hmax u (hperm.mem_iff.2 humem) hule

/-- Witness for `cep_credit_tier_lookup` at a concrete two-tier table and 15
completed hours. -/
theorem cep_credit_tier_lookup_witness :
    (∃ t ∈ [Tier.mk 10 2, Tier.mk 20 4], t.hours ≤ 15) ∧
    (∃ t ∈ [Tier.mk 10 2, Tier.mk 20 4], t.hours ≤ 15 ∧
      computeCredits [Tier.mk 10 2, Tier.mk 20 4] 15 = t.credits ∧
      ∀ u ∈ [Tier.mk 10 2, Tier.mk 20 4], u.hours ≤ 15 → u.hours ≤ t.hours) :=
  ⟨by decide, (cep_credit_tier_lookup [Tier.mk 10 2, Tier.mk 20 4] 15).2 (by decide)⟩

/-- C2: the teacher dashboard counts a student toward "students with all 4
documents" exactly when that student's set of distinct submitted document
types equals the four required types. -/
theorem fp_all_docs_check (uid : String) (subs : List FpSub) :
    countedAllDocs uid subs = true ↔ studentTypes uid subs = requiredTypes := by
  unfold countedAllDocs
  rw [Bool.and_eq_true, decide_eq_true_eq, decide_eq_true_eq]
  constructor
  · rintro ⟨hcard, hsub⟩
    have hsubset : requiredTypes ⊆ studentTypes uid subs := fun t ht => hsub t ht
    exact (Finset.eq_of_subset_of_card_le hsubset (le_of_eq hcard.symm)).symm
  · intro h
    rw [h]
    exact ⟨rfl, fun t ht => ht⟩

/-- Witness for `fp_all_docs_check`: a student with exactly the four required
documents is counted. -/
theorem fp_all_docs_check_witness :
    countedAllDocs "s1"
      [FpSub.mk "1" "s1" "FYIT" "completion_letter" "u" "t",
       FpSub.mk "2" "s1" "FYIT" "outcome_form" "u" "t",
       FpSub.mk "3" "s1" "FYIT" "feedback_form" "u" "t",
       FpSub.mk "4" "s1" "FYIT" "video_presentation" "u" "t"] = true :=
  (fp_all_docs_check "s1" _).2 (by decide)

/-- The hours `reduce` with any initial accumulator. -/
theorem foldl_add_hours (submissions : List CepSub) :
    ∀ a : ℚ, submissions.foldl (fun total sub => total + sub.hours) a
      = a + (submissions.map (fun s => s.hours)).sum := by
  induction submissions with
  | nil => intro a; simp
  | cons s l ih => intro a; simp [ih, add_assoc]

/-- `getTotalHours` is the sum of the `hours` fields. -/
theorem getTotalHours_eq_sum (submissions : List CepSub) :
    getTotalHours submissions = (submissions.map (fun s => s.hours)).sum := by
  simpa [getTotalHours] using foldl_add_hours submissions 0

/-- C3: the completed CEP hours are the sum of the `hours` field over all
submissions, and the displayed progress equals
`min((total / minimum_hours) * 100, 100)`. -/
theorem cep_hours_sum_and_progress (req : CEPRequirement) (submissions : List CepSub) :
    getTotalHours submissions = (submissions.map (fun s => s.hours)).sum ∧
    studentProgress (some req) submissions
      = min (((submissions.map (fun s => s.hours)).sum / req.minimum_hours) * 100) 100 := by
  refine ⟨getTotalHours_eq_sum submissions, ?_⟩
  simp only [studentProgress]
  rw [getTotalHours_eq_sum]

/-- C9: with a positive minimum-hours requirement and non-negative submitted
hours, the computed progress percentage lies in `[0, 100]`. -/
theorem cep_progress_bound (req : CEPRequirement) (submissions : List CepSub)
    (hmin : 0 < req.minimum_hours) (hnn : ∀ s ∈ submissions, 0 ≤ s.hours) :
    0 ≤ studentProgress (some req) submissions ∧
      studentProgress (some req) submissions ≤ 100 := by
  have hsum : 0 ≤ (submissions.map (fun s => s.hours)).sum := by
    apply List.sum_nonneg
    intro x hx
    obtain ⟨s, hs, rfl⟩ := List.mem_map.1 hx
    exact hnn s hs
  have htot : 0 ≤ getTotalHours submissions := by
    rw [getTotalHours_eq_sum]; exact hsum
  constructor
  · simp only [studentProgress]
    exact le_min (mul_nonneg (div_nonneg htot (le_of_lt hmin)) (by norm_num)) (by norm_num)
  · simp only [studentProgress]
    exact min_le_right _ _

/-- Witness for `cep_progress_bound` at a concrete requirement and one
3-hour submission. -/
theorem cep_progress_bound_witness :
    0 < (CEPRequirement.mk "FYIT" 10 "2025-03-01").minimum_hours ∧
    (∀ s ∈ [CepSub.mk "1" "u1" "cleanup" 3 "2025-01-02" "Mumbai"], 0 ≤ s.hours) ∧
    (0 ≤ studentProgress (some (CEPRequirement.mk "FYIT" 10 "2025-03-01"))
        [CepSub.mk "1" "u1" "cleanup" 3 "2025-01-02" "Mumbai"] ∧
      studentProgress (some (CEPRequirement.mk "FYIT" 10 "2025-03-01"))
        [CepSub.mk "1" "u1" "cleanup" 3 "2025-01-02" "Mumbai"] ≤ 100) :=
  ⟨by decide, by decide, cep_progress_bound _ _ (by decide) (by decide)⟩

/-- Appending to a group appends one element to the flattened groups, up to
permutation. -/
theorem addToGroup_join {α κ : Type} [DecidableEq κ] (key : κ) (x : α) :
    ∀ acc : List (κ × List α),
      ((addToGroup key x acc).map Prod.snd).flatten ~ (acc.map Prod.snd).flatten ++ [x] := by
  intro acc
  induction acc with
  | nil => simp [addToGroup]
  | cons p rest ih =>
    obtain ⟨k, xs⟩ := p
    by_cases hk : k = key
    · simp only [addToGroup, if_pos hk, List.map_cons, List.flatten_cons]
      calc (xs ++ [x]) ++ (rest.map Prod.snd).flatten
          = xs ++ ([x] ++ (rest.map Prod.snd).flatten) := by simp [List.append_assoc]
        _ ~ xs ++ ((rest.map Prod.snd).flatten ++ [x]) :=
            List.Perm.append_left xs List.perm_append_comm
        _ = (xs ++ (rest.map Prod.snd).flatten) ++ [x] := by simp [List.append_assoc]
    · simp only [addToGroup, if_neg hk, List.map_cons, List.flatten_cons]
      calc xs ++ ((addToGroup key x rest).map Prod.snd).flatten
          ~ xs ++ ((rest.map Prod.snd).flatten ++ [x]) := List.Perm.append_left xs ih
        _ = (xs ++ (rest.map Prod.snd).flatten) ++ [x] := by simp [List.append_assoc]

/-- The grouping fold flattens to the accumulator's rows followed by the
input rows, up to permutation. -/
theorem groupByKey_foldl_join {α κ : Type} [DecidableEq κ] (keyOf : α → κ) :
    ∀ (l : List α) (acc : List (κ × List α)),
      ((l.foldl (fun acc x => addToGroup (keyOf x) x acc) acc).map Prod.snd).flatten
        ~ (acc.map Prod.snd).flatten ++ l := by
  intro l
  induction l with
  | nil => intro acc; simp
  | cons x xs ih =>
    intro acc
    calc ((xs.foldl (fun acc x => addToGroup (keyOf x) x acc)
            (addToGroup (keyOf x) x acc)).map Prod.snd).flatten
        ~ ((addToGroup (keyOf x) x acc).map Prod.snd).flatten ++ xs := ih _
      _ ~ ((acc.map Prod.snd).flatten ++ [x]) ++ xs :=
          List.Perm.append_right xs (addToGroup_join (keyOf x) x acc)
      _ = (acc.map Prod.snd).flatten ++ (x :: xs) := by simp

/-- `addToGroup` preserves the group-key invariant. -/
theorem addToGroup_keys {α κ : Type} [DecidableEq κ] (keyOf : α → κ) (x : α) :
    ∀ acc : List (κ × List α),
      (∀ p ∈ acc, ∀ y ∈ p.2, keyOf y = p.1) →
      ∀ p ∈ addToGroup (keyOf x) x acc, ∀ y ∈ p.2, keyOf y = p.1 := by
  intro acc
  induction acc with
  | nil =>
    intro _ p hp y hy
    simp only [addToGroup, List.mem_singleton] at hp
    subst hp
    simp only [List.mem_singleton] at hy
    subst hy
    rfl
  | cons q rest ih =>
    obtain ⟨k, xs⟩ := q
    intro hacc p hp y hy
    by_cases hk : k = keyOf x
    · simp only [addToGroup, if_pos hk, List.mem_cons] at hp
      rcases hp with rfl | hp
      · rcases List.mem_append.1 hy with hy | hy
        · exact hacc (k, xs) (List.mem_cons_self _ _) y hy
        · simp only [List.mem_singleton] at hy
          subst hy
          exact hk.symm
      · exact hacc p (List.mem_cons_of_mem _ hp) y hy
    · simp only [addToGroup, if_neg hk, List.mem_cons] at hp
      rcases hp with rfl | hp
      · exact hacc (k, xs) (List.mem_cons_self _ _) y hy
      · exact ih (fun q hq => hacc q (List.mem_cons_of_mem _ hq)) p hp y hy

/-- The grouping fold preserves the group-key invariant. -/
theorem groupByKey_foldl_keys {α κ : Type} [DecidableEq κ] (keyOf : α → κ) :
    ∀ (l : List α) (acc : List (κ × List α)),
      (∀ p ∈ acc, ∀ y ∈ p.2, keyOf y = p.1) →
      ∀ p ∈ l.foldl (fun acc x => addToGroup (keyOf x) x acc) acc,
        ∀ y ∈ p.2, keyOf y = p.1 := by
  intro l
  induction l with
  | nil => intro acc hacc; exact hacc
  | cons x xs ih =>
    intro acc hacc
    exact ih _ (addToGroup_keys keyOf x acc hacc)

/-- Flattening the groups permutes the input list. -/
theorem groupByKey_join_perm {α κ : Type} [DecidableEq κ] (keyOf : α → κ)
    (l : List α) : ((groupByKey keyOf l).map Prod.snd).flatten ~ l := by
  simpa [groupByKey] using groupByKey_foldl_join keyOf l []

/-- Every element lands in the group keyed by its own key. -/
theorem groupByKey_keys {α κ : Type} [DecidableEq κ] (keyOf : α → κ) (l : List α) :
    ∀ p ∈ groupByKey keyOf l, ∀ y ∈ p.2, keyOf y = p.1 :=
  groupByKey_foldl_keys keyOf l [] (by intro p hp; simp at hp)

/-- C6: both grouping steps are lossless and duplication-free — joining the
groups' submission lists is a permutation of the input — and every submission
lands in the group whose key is derived from its own `student_uid`
(and `class`). -/
theorem grouping_preserves_rows (cepSubs : List CepSub) (fpSubs : List FpSub) :
    ((groupByKey (fun s => s.student_uid) cepSubs).map Prod.snd).flatten ~ cepSubs ∧
    (∀ p ∈ groupByKey (fun s => s.student_uid) cepSubs, ∀ s ∈ p.2, s.student_uid = p.1) ∧
    ((groupByKey fpGroupKey fpSubs).map Prod.snd).flatten ~ fpSubs ∧
    (∀ p ∈ groupByKey fpGroupKey fpSubs, ∀ s ∈ p.2, fpGroupKey s = p.1) :=
  ⟨groupByKey_join_perm _ cepSubs, groupByKey_keys _ cepSubs,
   groupByKey_join_perm _ fpSubs, groupByKey_keys _ fpSubs⟩

/-- Witness for `grouping_preserves_rows` on a concrete three-row list with a
repeated student. -/
theorem grouping_preserves_rows_witness :
    ((groupByKey (fun s => s.student_uid)
        [CepSub.mk "1" "u1" "a" 2 "d" "l", CepSub.mk "2" "u2" "b" 3 "d" "l",
         CepSub.mk "3" "u1" "c" 4 "d" "l"]).map Prod.snd).flatten
      ~ [CepSub.mk "1" "u1" "a" 2 "d" "l", CepSub.mk "2" "u2" "b" 3 "d" "l",
         CepSub.mk "3" "u1" "c" 4 "d" "l"] :=
  (grouping_preserves_rows
    [CepSub.mk "1" "u1" "a" 2 "d" "l", CepSub.mk "2" "u2" "b" 3 "d" "l",
     CepSub.mk "3" "u1" "c" 4 "d" "l"] []).1

/-- The floor evaluation used for the upper percentage bound. -/
theorem floor_hundred_half : ⌊(100 : ℚ) + 1/2⌋ = 100 := by
  have hhalf : ⌊(1 : ℚ)/2⌋ = 0 := by
    rw [Int.floor_eq_iff]
    norm_num
  rw [show ((100 : ℚ)) = ((100 : ℤ) : ℚ) by norm_num, Int.floor_int_add, hhalf]
  norm_num

/-- C10: the present/absent tallies feed a percentage that is `0` when there
are no tallied records and `round(100 * present / (present + absent))`
otherwise, and in all cases lies in `[0, 100]`. -/
theorem attendance_pct_guard (att : List String) :
    (presentCount att + absentCount att = 0 → attendancePct att = 0) ∧
    (0 < presentCount att + absentCount att →
      attendancePct att
        = round ((100 : ℚ) * (presentCount att : ℚ)
            / ((presentCount att : ℚ) + (absentCount att : ℚ)))) ∧
    0 ≤ attendancePct att ∧ attendancePct att ≤ 100 := by
  have hcast : ((presentCount att + absentCount att : ℕ) : ℚ)
      = (presentCount att : ℚ) + (absentCount att : ℚ) := by push_cast; ring
  refine ⟨?_, ?_, ?_, ?_⟩
  · intro h0
    simp only [attendancePct]
    rw [if_neg (by omega)]
  · intro hpos
    simp only [attendancePct]
    rw [if_pos hpos, hcast]
    congr 1
    ring
  · by_cases hpos : 0 < presentCount att + absentCount att
    · simp only [attendancePct]
      rw [if_pos hpos]
      have htpos : (0 : ℚ) < ((presentCount att + absentCount att : ℕ) : ℚ) := by
        exact_mod_cast hpos
      have hq : (0 : ℚ) ≤ ((presentCount att : ℚ)
          / ((presentCount att + absentCount att : ℕ) : ℚ)) * 100 := by
        apply mul_nonneg
        · exact div_nonneg (by positivity) (le_of_lt htpos)
        · norm_num
      rw [round_eq]
      have : (0 : ℤ) ≤ ⌊((presentCount att : ℚ)
          / ((presentCount att + absentCount att : ℕ) : ℚ)) * 100 + 1/2⌋ := by
        rw [Int.le_floor]
        simp only [Int.cast_zero]
        linarith
      exact this
    · simp only [attendancePct]
      rw [if_neg hpos]
  · by_cases hpos : 0 < presentCount att + absentCount att
    · simp only [attendancePct]
      rw [if_pos hpos]
      have htpos : (0 : ℚ) < ((presentCount att + absentCount att : ℕ) : ℚ) := by
        exact_mod_cast hpos
      have hple : (presentCount att : ℚ) ≤ ((presentCount att + absentCount att : ℕ) : ℚ) := by
        exact_mod_cast Nat.le_add_right _ _
      have hq : ((presentCount att : ℚ)
          / ((presentCount att + absentCount att : ℕ) : ℚ)) * 100 ≤ 100 := by
        have : (presentCount att : ℚ) / ((presentCount att + absentCount att : ℕ) : ℚ) ≤ 1 :=
          (div_le_one htpos).2 hple
        nlinarith
      rw [round_eq]
      calc ⌊((presentCount att : ℚ)
            / ((presentCount att + absentCount att : ℕ) : ℚ)) * 100 + 1/2⌋
          ≤ ⌊(100 : ℚ) + 1/2⌋ := Int.floor_mono (by linarith)
        _ = 100 := floor_hundred_half
    · simp only [attendancePct]
      rw [if_neg hpos]
      norm_num

/-- Witness for `attendance_pct_guard` on one present and one absent record. -/
theorem attendance_pct_guard_witness :
    0 < presentCount ["present", "absent"] + absentCount ["present", "absent"] ∧
    attendancePct ["present", "absent"]
      = round ((100 : ℚ) * (presentCount ["present", "absent"] : ℚ)
          / ((presentCount ["present", "absent"] : ℚ)
            + (absentCount ["present", "absent"] : ℚ))) :=
  ⟨by decide, (attendance_pct_guard ["present", "absent"]).2.1 (by decide)⟩

/-- Closed form of the export's per-student fold: the cells are mapped from
the looked-up statuses and the points sum the `present` activities. -/
theorem studentRowData_foldl (records : List AttRecord) (uid : String) :
    ∀ (cas : List Activity) (cells : List String) (pts : Int),
      cas.foldl (fun acc activity =>
          (acc.1 ++ [cellFor (lookupStatus records activity.id uid)],
           acc.2 + pointsFor activity (lookupStatus records activity.id uid)))
        (cells, pts)
      = (cells ++ cas.map (fun a => cellFor (lookupStatus records a.id uid)),
         pts + ((cas.filter (fun a =>
             decide (lookupStatus records a.id uid = some "present"))).map
           (fun a => a.cc_points.getD 0)).sum) := by
  intro cas
  induction cas with
  | nil => intro cells pts; simp
  | cons a l ih =>
    intro cells pts
    simp only [List.foldl_cons, List.map_cons, List.filter_cons]
    rw [ih]
    by_cases hp : lookupStatus records a.id uid = some "present"
    · simp [hp, pointsFor, add_assoc]
    · simp [hp, pointsFor]

/-- A looked-up status comes from some record with that key and status. -/
theorem lookupStatus_some_mem (records : List AttRecord) (aid : Int) (uid : String)
    (st : String) (h : lookupStatus records aid uid = some st) :
    hasStatusRecord records aid uid st = true := by
  unfold lookupStatus at h
  cases hfind : records.reverse.find?
      (fun r => r.activity_id = aid && r.student_uid = uid) with
  | none => rw [hfind] at h; simp at h
  | some r =>
    rw [hfind] at h
    have h : r.attendance_status = st := by simpa using h
    have hpred := List.find?_some hfind
    have hmem : r ∈ records := List.mem_reverse.1 (List.mem_of_find?_eq_some hfind)
    simp only [Bool.and_eq_true, decide_eq_true_eq] at hpred
    unfold hasStatusRecord
    rw [List.any_eq_true]
    exact ⟨r, hmem, by simp [hpred.1, hpred.2, h]⟩

/-- With at most one record per key, a record's status is what the map
lookup returns. -/
theorem lookupStatus_of_unique (records : List AttRecord) (aid : Int) (uid : String)
    (st : String)
    (huniq : records.Pairwise (fun r1 r2 => ¬ sameKey r1 r2))
    (h : hasStatusRecord records aid uid st = true) :
    lookupStatus records aid uid = some st := by
  unfold hasStatusRecord at h
  rw [List.any_eq_true] at h
  obtain ⟨r, hmem, hpred⟩ := h
  simp only [Bool.and_eq_true, decide_eq_true_eq] at hpred
  obtain ⟨⟨haid, huid⟩, hst⟩ := hpred
  cases hfind : records.reverse.find?
      (fun r => r.activity_id = aid && r.student_uid = uid) with
  | none =>
    exfalso
    rw [List.find?_eq_none] at hfind
    have := hfind r (List.mem_reverse.2 hmem)
    simp [haid, huid] at this
  | some r2 =>
    have hpred2 := List.find?_some hfind
    have hmem2 : r2 ∈ records := List.mem_reverse.1 (List.mem_of_find?_eq_some hfind)
    simp only [Bool.and_eq_true, decide_eq_true_eq] at hpred2
    have hsame : sameKey r r2 := ⟨by rw [haid, hpred2.1], by rw [huid, hpred2.2]⟩
    have hsymm : Symmetric (fun r1 r2 : AttRecord => ¬ sameKey r1 r2) := by
      intro x y hxy hyx
      exact hxy ⟨hyx.1.symm, hyx.2.symm⟩
    have heq : r = r2 := by
      by_contra hne
      exact huniq.forall hsymm hmem hmem2 hne hsame
    unfold lookupStatus
    rw [hfind]
    simp [← heq, hst]

/-- With at most one record per key, the export's cell agrees with the
record-existence description of the claim. -/
theorem cellFor_eq_claimCell (records : List AttRecord) (aid : Int) (uid : String)
    (huniq : records.Pairwise (fun r1 r2 => ¬ sameKey r1 r2)) :
    cellFor (lookupStatus records aid uid) = claimCell records aid uid := by
  unfold claimCell
  by_cases hpres : hasStatusRecord records aid uid "present" = true
  · rw [if_pos hpres, lookupStatus_of_unique records aid uid "present" huniq hpres]
    rfl
  · rw [if_neg hpres]
    by_cases habs : hasStatusRecord records aid uid "absent" = true
    · rw [if_pos habs, lookupStatus_of_unique records aid uid "absent" huniq habs]
      rfl
    · rw [if_neg habs]
      cases hlk : lookupStatus records aid uid with
      | none => rfl
      | some s =>
        have hmem := lookupStatus_some_mem records aid uid s hlk
        have hs1 : s ≠ "present" := fun h => hpres (h ▸ hmem)
        have hs2 : s ≠ "absent" := fun h => habs (h ▸ hmem)
        simp [cellFor, hs1, hs2]

/-- C4 (amended with at most one attendance record per
`(activity, student)` key): the exported `Total CC Points` of a student are
the sum of `cc_points || 0` over exactly those activities assigned to the
class for which the student has a `present` record, and each cell reads
`Present`, `Absent`, or `-` according to the student's record for that
activity. -/
theorem attendance_export_tally (activities : List Activity)
    (records : List AttRecord) (cls uid : String)
    (huniq : records.Pairwise (fun r1 r2 => ¬ sameKey r1 r2)) :
    (studentRowData (classActivitiesFor activities cls) records uid).2
      = (((activities.filter (assignedTo cls)).filter
            (fun a => hasStatusRecord records a.id uid "present")).map
          (fun a => a.cc_points.getD 0)).sum ∧
    (studentRowData (classActivitiesFor activities cls) records uid).1
      = (classActivitiesFor activities cls).map
          (fun a => claimCell records a.id uid) := by
  have hpred : ∀ (l : List Activity),
      l.filter (fun a => decide (lookupStatus records a.id uid = some "present"))
        = l.filter (fun a => hasStatusRecord records a.id uid "present") := by
    intro l
    apply List.filter_congr
    intro a _
    by_cases h : hasStatusRecord records a.id uid "present" = true
    · rw [h, lookupStatus_of_unique records a.id uid "present" huniq h]
      simp
    · have hne : lookupStatus records a.id uid ≠ some "present" := fun hlk =>
        h (lookupStatus_some_mem records a.id uid "present" hlk)
      rw [decide_eq_false hne]
      cases hb : hasStatusRecord records a.id uid "present"
      · rfl
      · exact absurd hb h
  have hperm : List.Perm (classActivitiesFor activities cls)
      (activities.filter (assignedTo cls)) :=
    List.perm_insertionSort dateLE _
  constructor
  · rw [studentRowData, studentRowData_foldl records uid _ [] 0]
    simp only [zero_add]
    rw [hpred]
    exact List.Perm.sum_eq (List.Perm.map _ (List.Perm.filter _ hperm))
  · rw [studentRowData, studentRowData_foldl records uid _ [] 0]
    simp only [List.nil_append]
    exact List.map_congr_left
      (fun a _ => cellFor_eq_claimCell records a.id uid huniq)

/-- Witness for `attendance_export_tally` at one activity, one present
record, and one student. -/
theorem attendance_export_tally_witness :
    ([AttRecord.mk 1 "s1" "present"].Pairwise (fun r1 r2 => ¬ sameKey r1 r2)) ∧
    (studentRowData
        (classActivitiesFor
          [Activity.mk 1 "Quiz" "2025-01-10" (some ["FYIT"]) (some 5)] "FYIT")
        [AttRecord.mk 1 "s1" "present"] "s1").2
      = ((([Activity.mk 1 "Quiz" "2025-01-10" (some ["FYIT"]) (some 5)].filter
            (assignedTo "FYIT")).filter
          (fun a => hasStatusRecord [AttRecord.mk 1 "s1" "present"] a.id "s1" "present")).map
        (fun a => a.cc_points.getD 0)).sum :=
  ⟨by decide,
   (attendance_export_tally
     [Activity.mk 1 "Quiz" "2025-01-10" (some ["FYIT"]) (some 5)]
     [AttRecord.mk 1 "s1" "present"] "FYIT" "s1" (by decide)).1⟩

/-- Counterexample to C4 as universally stated: with two records for the same
`(activity, student)` key — `present` then `absent` — the export's last-write
map yields 0 points, while the claim's sum over activities having a `present`
record yields the activity's 5 points. -/
theorem attendance_export_tally_counterexample :
    (studentRowData
        (classActivitiesFor
          [Activity.mk 1 "Quiz" "2025-01-10" (some ["FYIT"]) (some 5)] "FYIT")
        [AttRecord.mk 1 "s1" "present", AttRecord.mk 1 "s1" "absent"] "s1").2 = 0 ∧
    ((([Activity.mk 1 "Quiz" "2025-01-10" (some ["FYIT"]) (some 5)].filter
          (assignedTo "FYIT")).filter
        (fun a => hasStatusRecord
          [AttRecord.mk 1 "s1" "present", AttRecord.mk 1 "s1" "absent"] a.id "s1" "present")).map
      (fun a => a.cc_points.getD 0)).sum = 5 := by
  decide

/-- C5 at a concrete input: a student whose stored class is `FYIT` mounts the
component while the only fetched activity is assigned to `SYIT` alone.
After the effect the stored class is known (`some "FYIT"`), yet the
mount-path activities list is the unfiltered fetch result, not the
class-filtered list (which would be empty): `fetchActivities` reads the
stale initial `studentClass`. -/
theorem cocurricular_mount_unfiltered :
    (mountCoCurricular Role.student (some Role.student) (some "FYIT")
        [Activity.mk 1 "Tech Talk" "2025-02-01" (some ["SYIT"]) none]).studentClass
      = some "FYIT" ∧
    (mountCoCurricular Role.student (some Role.student) (some "FYIT")
        [Activity.mk 1 "Tech Talk" "2025-02-01" (some ["SYIT"]) none]).activities
      = [Activity.mk 1 "Tech Talk" "2025-02-01" (some ["SYIT"]) none] ∧
    fetchActivitiesResult Role.student (some "FYIT")
        [Activity.mk 1 "Tech Talk" "2025-02-01" (some ["SYIT"]) none] = [] := by
  decide

/-- The prefix test holds exactly on prefixes. -/
theorem hasPrefixChars_iff (p : List Char) :
    ∀ s, hasPrefixChars p s = true ↔ ∃ suf, s = p ++ suf := by
  induction p with
  | nil => intro s; simp [hasPrefixChars]
  | cons a ps ih =>
    intro s
    cases s with
    | nil =>
      simp only [hasPrefixChars]
      constructor
      · intro h; cases h
      · rintro ⟨suf, hsuf⟩; cases hsuf
    | cons c cs =>
      simp only [hasPrefixChars, Bool.and_eq_true, decide_eq_true_eq]
      constructor
      · rintro ⟨rfl, hrest⟩
        obtain ⟨suf, rfl⟩ := (ih cs).1 hrest
        exact ⟨suf, rfl⟩
      · rintro ⟨suf, hsuf⟩
        rw [List.cons_append] at hsuf
        injection hsuf with h1 h2
        exact ⟨h1.symm, (ih cs).2 ⟨suf, h2⟩⟩

/-- The containment test holds exactly on contiguous occurrences. -/
theorem hasSubChars_iff (pat : List Char) :
    ∀ s, hasSubChars pat s = true ↔ ∃ pre suf, s = pre ++ pat ++ suf := by
  intro s
  induction s with
  | nil =>
    simp only [hasSubChars]
    rw [hasPrefixChars_iff]
    constructor
    · rintro ⟨suf, hsuf⟩
      exact ⟨[], suf, by simpa using hsuf⟩
    · rintro ⟨pre, suf, hsuf⟩
      have hpre : pre = [] := by
        cases pre with
        | nil => rfl
        | cons x xs => simp at hsuf
      subst hpre
      exact ⟨suf, by simpa using hsuf⟩
  | cons c cs ih =>
    simp only [hasSubChars, Bool.or_eq_true]
    constructor
    · rintro (h | h)
      · obtain ⟨suf, hsuf⟩ := (hasPrefixChars_iff pat (c :: cs)).1 h
        exact ⟨[], suf, by simpa using hsuf⟩
      · obtain ⟨pre, suf, hsuf⟩ := ih.1 h
        exact ⟨c :: pre, suf, by simp [hsuf]⟩
    · rintro ⟨pre, suf, hsuf⟩
      cases pre with
      | nil =>
        left
        exact (hasPrefixChars_iff pat (c :: cs)).2 ⟨suf, by simpa using hsuf⟩
      | cons x xs =>
        right
        rw [List.cons_append, List.cons_append] at hsuf
        injection hsuf with h1 h2
        exact ih.2 ⟨xs, suf, by simpa using h2⟩

/-- The `includes` model holds exactly on substring decompositions. -/
theorem includesStr_iff (s pat : String) :
    includesStr s pat = true ↔ ∃ pre suf, s.data = pre ++ pat.data ++ suf :=
  hasSubChars_iff pat.data s.data

/-- Lower-casing preserves emptiness. -/
theorem lowerStr_eq_empty_iff (s : String) : lowerStr s = "" ↔ s = "" := by
  cases s with
  | mk data =>
    constructor
    · intro h
      have hdata : data.map Char.toLower = [] := congrArg String.data h
      have : data = [] := List.map_eq_nil_iff.1 hdata
      rw [this]
    · intro h
      rw [h]; rfl

/-- C7: with all filter fields empty each client-side filter is the identity,
and with a non-empty field every returned row satisfies that field — class by
exact equality (via the roster entry for the CEP view), uid and name/search
by case-insensitive substring containment. -/
theorem client_filter_identity_and_soundness (students : List StudentRec)
    (filters : Filters) (fpSubs : List FpSub) (cepSubs : List CepSub)
    (roster : List StudentRow) (classFilter search : String) :
    (filters = Filters.mk "" "" "" →
      filteredSubmissions students filters fpSubs = fpSubs) ∧
    (∀ sub ∈ filteredSubmissions students filters fpSubs,
      (filters.cls ≠ "" → sub.cls = filters.cls) ∧
      (filters.uid ≠ "" → ∃ pre suf,
        (lowerStr sub.student_uid).data = pre ++ (lowerStr filters.uid).data ++ suf) ∧
      (filters.name ≠ "" → ∃ st ∈ students, st.uid = sub.student_uid ∧ ∃ pre suf,
        (lowerStr st.name).data = pre ++ (lowerStr filters.name).data ++ suf)) ∧
    (filters = Filters.mk "" "" "" →
      filteredTeacherSubmissions students filters cepSubs = cepSubs) ∧
    (∀ sub ∈ filteredTeacherSubmissions students filters cepSubs,
      (filters.cls ≠ "" → ∃ st ∈ students, st.uid = sub.student_uid ∧
        st.cls = filters.cls) ∧
      (filters.uid ≠ "" → ∃ pre suf,
        (lowerStr sub.student_uid).data = pre ++ (lowerStr filters.uid).data ++ suf) ∧
      (filters.name ≠ "" → ∃ st ∈ students, st.uid = sub.student_uid ∧ ∃ pre suf,
        (lowerStr st.name).data = pre ++ (lowerStr filters.name).data ++ suf)) ∧
    (classFilter = "" → search = "" →
      filteredStudents classFilter search roster = roster) ∧
    (∀ s ∈ filteredStudents classFilter search roster,
      (classFilter ≠ "" → s.cls = classFilter) ∧
      (search ≠ "" →
        (∃ pre suf, (lowerStr s.uid).data = pre ++ (lowerStr search).data ++ suf) ∨
        (∃ pre suf, (lowerStr s.name).data = pre ++ (lowerStr search).data ++ suf) ∨
        (∃ pre suf,
          (lowerStr (s.email.getD "")).data = pre ++ (lowerStr search).data ++ suf))) := by
  refine ⟨?_, ?_, ?_, ?_, ?_, ?_⟩
  · rintro rfl
    apply List.filter_eq_self.2
    intro sub _
    simp [matchesFpFilters]
  · intro sub hsub
    obtain ⟨-, hpred⟩ := List.mem_filter.1 hsub
    simp only [matchesFpFilters, Bool.and_eq_true, Bool.or_eq_true,
      decide_eq_true_eq] at hpred
    obtain ⟨⟨hcls, huid⟩, hname⟩ := hpred
    refine ⟨fun h => hcls.resolve_left h, ?_, ?_⟩
    · intro h
      exact (includesStr_iff _ _).1 (huid.resolve_left h)
    · intro h
      have hmatch := hname.resolve_left h
      cases hfind : students.find? (fun s => s.uid = sub.student_uid) with
      | none => rw [hfind] at hmatch; cases hmatch
      | some st =>
        rw [hfind] at hmatch
        have hmem : st ∈ students := List.mem_of_find?_eq_some hfind
        have hstuid : st.uid = sub.student_uid := by
          have := List.find?_some hfind
          simpa using this
        exact ⟨st, hmem, hstuid, (includesStr_iff _ _).1 hmatch⟩
  · rintro rfl
    apply List.filter_eq_self.2
    intro sub _
    simp [matchesCepFilters]
  · intro sub hsub
    obtain ⟨-, hpred⟩ := List.mem_filter.1 hsub
    simp only [matchesCepFilters, Bool.and_eq_true, Bool.or_eq_true,
      decide_eq_true_eq] at hpred
    obtain ⟨⟨hcls, huid⟩, hname⟩ := hpred
    refine ⟨?_, ?_, ?_⟩
    · intro h
      have hmatch := hcls.resolve_left h
      cases hfind : students.find? (fun s => s.uid = sub.student_uid) with
      | none => rw [hfind] at hmatch; cases hmatch
      | some st =>
        rw [hfind] at hmatch
        simp only [decide_eq_true_eq] at hmatch
        have hmem : st ∈ students := List.mem_of_find?_eq_some hfind
        have hstuid : st.uid = sub.student_uid := by
          have := List.find?_some hfind
          simpa using this
        exact ⟨st, hmem, hstuid, hmatch⟩
    · intro h
      exact (includesStr_iff _ _).1 (huid.resolve_left h)
    · intro h
      have hmatch := hname.resolve_left h
      cases hfind : students.find? (fun s => s.uid = sub.student_uid) with
      | none => rw [hfind] at hmatch; cases hmatch
      | some st =>
        rw [hfind] at hmatch
        have hmem : st ∈ students := List.mem_of_find?_eq_some hfind
        have hstuid : st.uid = sub.student_uid := by
          have := List.find?_some hfind
          simpa using this
        exact ⟨st, hmem, hstuid, (includesStr_iff _ _).1 hmatch⟩
  · rintro rfl rfl
    apply List.filter_eq_self.2
    intro s _
    simp [matchesStudentFilters, lowerStr]
  · intro s hs
    obtain ⟨-, hpred⟩ := List.mem_filter.1 hs
    simp only [matchesStudentFilters, Bool.and_eq_true, Bool.or_eq_true,
      decide_eq_true_eq] at hpred
    obtain ⟨hcls, hsearch⟩ := hpred
    refine ⟨fun h => hcls.resolve_left h, ?_⟩
    intro h
    have hq : ¬ lowerStr search = "" := fun hq => h ((lowerStr_eq_empty_iff search).1 hq)
    rcases hsearch with ((hempty | huid) | hname) | hmail
    · exact absurd hempty hq
    · exact Or.inl ((includesStr_iff _ _).1 huid)
    · exact Or.inr (Or.inl ((includesStr_iff _ _).1 hname))
    · exact Or.inr (Or.inr ((includesStr_iff _ _).1 hmail))

/-- Witness for `client_filter_identity_and_soundness`: empty filters leave a
one-element submission list unchanged. -/
theorem client_filter_identity_witness :
    filteredSubmissions [] (Filters.mk "" "" "")
        [FpSub.mk "1" "s1" "FYIT" "outcome_form" "u" "t"]
      = [FpSub.mk "1" "s1" "FYIT" "outcome_form" "u" "t"] :=
  (client_filter_identity_and_soundness [] (Filters.mk "" "" "")
    [FpSub.mk "1" "s1" "FYIT" "outcome_form" "u" "t"] [] [] "" "").1 rfl

/-- When every data row with a non-empty uid has a valid class, the loop
collects exactly the non-empty-uid rows. -/
theorem parseDataRows_complete (header : List (List Char)) :
    ∀ rows : List (List Char),
      (∀ row ∈ rows, (rowUid header row).isEmpty = false →
        classOptions.contains (rowCls header row) = true) →
      parseDataRows header rows
        = some ((rows.filter (fun row => !(rowUid header row).isEmpty)).map
            (rowToUpsert header)) := by
  intro rows
  induction rows with
  | nil => intro _; rfl
  | cons row rest ih =>
    intro hok
    have hrest := fun r hr => hok r (List.mem_cons_of_mem _ hr)
    simp only [parseDataRows, List.filter_cons]
    cases hu : (rowUid header row).isEmpty with
    | true => simp [hu, ih hrest]
    | false =>
      have hcls := hok row (List.mem_cons_self _ _) hu
      simp [hu, hcls, ih hrest, List.mem_of_elem_eq_true hcls]

/-- Any data row with a non-empty uid and an invalid class aborts the
loop. -/
theorem parseDataRows_abort (header : List (List Char)) :
    ∀ rows : List (List Char),
      (∃ row ∈ rows, (rowUid header row).isEmpty = false ∧
        classOptions.contains (rowCls header row) = false) →
      parseDataRows header rows = none := by
  intro rows
  induction rows with
  | nil => rintro ⟨row, hmem, -⟩; simp at hmem
  | cons row rest ih =>
    rintro ⟨bad, hmem, hbaduid, hbadcls⟩
    simp only [parseDataRows]
    rcases List.mem_cons.1 hmem with rfl | hmem
    · rw [hbaduid, hbadcls]
      simp
    · cases hu : (rowUid header row).isEmpty with
      | true =>
        simp only [if_pos rfl]
        exact ih ⟨bad, hmem, hbaduid, hbadcls⟩
      | false =>
        cases hc : classOptions.contains (rowCls header row) with
        | true => simp [ih ⟨bad, hmem, hbaduid, hbadcls⟩]
        | false => simp

/-- An empty CSV has no usable header. -/
theorem csvHeaderOk_of_rows_nil (text : String) (h : csvRows text = []) :
    csvHeaderOk text = false := by
  unfold csvHeaderOk csvHeader
  rw [h]
  decide

/-- C8: the CSV roster import validates before writing — a missing required
header column, or any data row with a non-empty uid and a class outside
`CLASS_OPTIONS`, aborts the import before the single upsert call and leaves
the stored roster unchanged; otherwise the rows with an empty uid are
skipped and the remaining rows are upserted keyed on uid in one call. -/
theorem csv_import_validation (roster : List UpsertRow) (text : String) :
    (csvHeaderOk text = false →
      handleCsvUpload text = none ∧ applyCsvImport roster text = roster) ∧
    ((∃ row ∈ (csvRows text).tail, (rowUid (csvHeader text) row).isEmpty = false ∧
        classOptions.contains (rowCls (csvHeader text) row) = false) →
      handleCsvUpload text = none ∧ applyCsvImport roster text = roster) ∧
    (csvHeaderOk text = true →
      (∀ row ∈ (csvRows text).tail, (rowUid (csvHeader text) row).isEmpty = false →
        classOptions.contains (rowCls (csvHeader text) row) = true) →
      handleCsvUpload text
        = some (((csvRows text).tail.filter
            (fun row => !(rowUid (csvHeader text) row).isEmpty)).map
          (rowToUpsert (csvHeader text)))) := by
  refine ⟨?_, ?_, ?_⟩
  · intro hbad
    have hnone : handleCsvUpload text = none := by
      unfold handleCsvUpload
      by_cases h0 : (csvRows text).length = 0
      · rw [if_pos h0]
      · rw [if_neg h0, hbad]
        simp
    exact ⟨hnone, by simp [applyCsvImport, hnone]⟩
  · intro hex
    have hnone : handleCsvUpload text = none := by
      unfold handleCsvUpload
      by_cases h0 : (csvRows text).length = 0
      · rw [if_pos h0]
      · rw [if_neg h0]
        cases hck : csvHeaderOk text with
        | false => simp
        | true =>
          simp only [if_pos rfl]
          exact parseDataRows_abort (csvHeader text) (csvRows text).tail hex
    exact ⟨hnone, by simp [applyCsvImport, hnone]⟩
  · intro hck hall
    have h0 : ¬ (csvRows text).length = 0 := by
      intro h0
      have hnil : csvRows text = [] := List.length_eq_zero.1 h0
      rw [csvHeaderOk_of_rows_nil text hnil] at hck
      cases hck
    unfold handleCsvUpload
    rw [if_neg h0, hck]
    simp only [if_pos rfl]
    exact parseDataRows_complete (csvHeader text) (csvRows text).tail hall

/-- Witness for `csv_import_validation` on a concrete three-line CSV whose
second data row has an empty uid. -/
theorem csv_import_validation_witness :
    csvHeaderOk "uid,email,name,class\nA1,a@x.com,Alice,FYIT\n,b@x.com,Bob,FYIT" = true ∧
    (∀ row ∈ (csvRows "uid,email,name,class\nA1,a@x.com,Alice,FYIT\n,b@x.com,Bob,FYIT").tail,
      (rowUid (csvHeader "uid,email,name,class\nA1,a@x.com,Alice,FYIT\n,b@x.com,Bob,FYIT") row).isEmpty = false →
      classOptions.contains
        (rowCls (csvHeader "uid,email,name,class\nA1,a@x.com,Alice,FYIT\n,b@x.com,Bob,FYIT") row) = true) ∧
    handleCsvUpload "uid,email,name,class\nA1,a@x.com,Alice,FYIT\n,b@x.com,Bob,FYIT"
      = some (((csvRows "uid,email,name,class\nA1,a@x.com,Alice,FYIT\n,b@x.com,Bob,FYIT").tail.filter
          (fun row => !(rowUid (csvHeader "uid,email,name,class\nA1,a@x.com,Alice,FYIT\n,b@x.com,Bob,FYIT") row).isEmpty)).map
        (rowToUpsert (csvHeader "uid,email,name,class\nA1,a@x.com,Alice,FYIT\n,b@x.com,Bob,FYIT"))) :=
  ⟨by decide, by decide,
   (csv_import_validation []
     "uid,email,name,class\nA1,a@x.com,Alice,FYIT\n,b@x.com,Bob,FYIT").2.2
     (by decide) (by decide)⟩

end CrediLocker
